import Mathlib

/-!
Shallow embedding of the DSLx bytecode interpreter core
(`xls/dslx/bytecode_interpreter.cc`).

Stacks and slot vectors are `List InterpValue` with the HEAD of the list
being the top of the stack (`stack_.back()` in the C++).  Machine integers
are `Nat` patterns (the stored bit pattern of a width-`w` bits value) with
wrap-around written explicitly as `% 2 ^ w`.  Fallible C++ code returning
`absl::Status` is embedded as `Except ErrKind`.
-/

namespace XlsDslx

/-- Error kinds of the interpreter's `absl::Status` taxonomy (spec section 7).
`internal` also stands in for `XLS_RET_CHECK` failures and for
`std::vector::at` out-of-range aborts, which terminate the process in the
C++ rather than producing a status. -/
inductive ErrKind where
  | invalidArgument
  | internal
  | unavailable
  | failure
  | unimplemented
  deriving DecidableEq, Repr

/-- Runtime value model (`InterpValue`).  `ubits`/`sbits` store the width and
the raw bit pattern (a `Nat`, the unsigned reading of the stored bits).
`enumv` stores the underlying signedness, width and bit pattern of the enum
value.  `channel` and `funcv` are handles onto externally-owned state. -/
inductive InterpValue where
  | ubits (width : Nat) (pattern : Nat)
  | sbits (width : Nat) (pattern : Nat)
  | enumv (signed : Bool) (width : Nat) (pattern : Nat)
  | array (elts : List InterpValue)
  | tuple (elts : List InterpValue)
  | token
  | channel (id : Nat)
  | funcv (id : Nat)

namespace InterpValue

/-- `InterpValue::MakeBits(is_signed, bits)`. -/
def mkBits (signed : Bool) (width : Nat) (pattern : Nat) : InterpValue :=
  if signed then .sbits width pattern else .ubits width pattern

/-- `InterpValue::MakeBool`: a 1-bit unsigned value. -/
def mkBool (b : Bool) : InterpValue := .ubits 1 (if b then 1 else 0)

/-- `InterpValue::MakeU32`. -/
def mkU32 (n : Nat) : InterpValue := .ubits 32 (n % 2 ^ 32)

/-- `InterpValue::HasBits` / `GetBits`: the width and raw pattern of a
bits-carrying value (unsigned, signed, or enum). -/
def getBits? : InterpValue → Option (Nat × Nat)
  | .ubits w p => some (w, p)
  | .sbits w p => some (w, p)
  | .enumv _ w p => some (w, p)
  | _ => none

/-- `InterpValue::IsSigned` for bits-carrying values (false otherwise). -/
def isSignedTag : InterpValue → Bool
  | .sbits _ _ => true
  | .enumv s _ _ => s
  | _ => false

/-- `InterpValue::GetValues`: the element list of an array or tuple. -/
def getValues? : InterpValue → Option (List InterpValue)
  | .array elts => some elts
  | .tuple elts => some elts
  | _ => none

/-- Two's-complement reading of a width-`w` bit pattern. -/
def patToInt (w : Nat) (p : Nat) : Int :=
  if p < 2 ^ (w - 1) then (p : Int) else (p : Int) - 2 ^ w

/-- The numeric reading of a bits value: two's complement when the tag is
signed, the raw pattern otherwise (bits-engine `ToInt64`/`ToUint64`). -/
def toIntVal (v : InterpValue) : Option Int :=
  match v.getBits? with
  | none => none
  | some (w, p) => some (if v.isSignedTag then patToInt w p else (p : Nat))

/-- Modelled from the spec: `InterpValue::Eq` (`interp_value.cc` is not part
of the sources).  Structural on arrays and tuples; on bits-carrying values it
compares width and bit pattern with the signedness tag ignored (spec section
3 invariants). -/
def valueEq : InterpValue → InterpValue → Bool
  | .array xs, .array ys => valueListEq xs ys
  | .tuple xs, .tuple ys => valueListEq xs ys
  | .token, .token => true
  | .channel i, .channel j => i == j
  | .funcv i, .funcv j => i == j
  | a, b =>
    match a.getBits?, b.getBits? with
    | some (w1, p1), some (w2, p2) => w1 == w2 && p1 == p2
    | _, _ => false
where
  /-- Element-wise `Eq` over the children of an array or tuple. -/
  valueListEq : List InterpValue → List InterpValue → Bool
  | [], [] => true
  | x :: xs, y :: ys => valueEq x y && valueListEq xs ys
  | _, _ => false

/-- `InterpValue::IsTrue`: a bits-carrying value whose bits are one. -/
def isTrueVal (v : InterpValue) : Bool :=
  match v.getBits? with
  | some (_, p) => p == 1
  | none => false

end InterpValue

open InterpValue

/-- `BytecodeInterpreter::Frame::StoreSlot`: when `|slots| ≤ slot` a single
`Token` is appended (the comment in the source: slots are assigned in
ascending order of use, so at most one new slot is ever needed), then
`slots_.at(slot) = value` — which is out of range (process abort) whenever
`slot` still exceeds the grown size; that case is `none`. -/
def storeSlot (slot : Nat) (value : InterpValue) (slots : List InterpValue) :
    Option (List InterpValue) :=
  let grown := if slots.length ≤ slot then slots ++ [.token] else slots
  if slot < grown.length then some (grown.set slot value) else none

/-- `BytecodeInterpreter::EvalStore`: pop a value (invalid-argument on an
empty stack) and write it into slot `i` via `StoreSlot`; a `StoreSlot`
out-of-range abort is reported as `internal`. -/
def evalStore (slot : Nat) (stack slots : List InterpValue) :
    Except ErrKind (List InterpValue × List InterpValue) :=
  match stack with
  | [] => .error .invalidArgument
  | v :: rest =>
    match storeSlot slot v slots with
    | some slots2 => .ok (rest, slots2)
    | none => .error .internal

/-- `BytecodeInterpreter::EvalExpandTuple`: pop the stack top (the C++ reads
`stack_.back()` of a possibly-empty stack; the empty case is modelled as
`internal`); a non-tuple top is a failure error; otherwise the elements are
pushed from index `n-1` down to `0`, so element 0 ends on top. -/
def evalExpandTuple (stack : List InterpValue) :
    Except ErrKind (List InterpValue) :=
  match stack with
  | [] => .error .internal
  | v :: rest =>
    match v with
    | .tuple elts => .ok (elts ++ rest)
    | _ => .error .failure

/-- `BytecodeInterpreter::EvalCreateTuple`: `XLS_RET_CHECK` that the stack
holds at least `n` values, pop `n` of them (top first), reverse the popped
list, and push the resulting tuple. -/
def evalCreateTuple (n : Nat) (stack : List InterpValue) :
    Except ErrKind (List InterpValue) :=
  if n ≤ stack.length then
    .ok (.tuple (stack.take n).reverse :: stack.drop n)
  else .error .internal

/-- `BytecodeInterpreter::EvalCreateArray`: identical stack discipline to
`EvalCreateTuple`, producing an array. -/
def evalCreateArray (n : Nat) (stack : List InterpValue) :
    Except ErrKind (List InterpValue) :=
  if n ≤ stack.length then
    .ok (.array (stack.take n).reverse :: stack.drop n)
  else .error .internal

section CreateExpand

/-! ### C1: ExpandTuple then CreateTuple -/

example :
    (evalExpandTuple [.tuple [.ubits 8 1, .ubits 8 2]]).bind (evalCreateTuple 2)
      = .ok [.tuple [.ubits 8 2, .ubits 8 1]] := rfl

end CreateExpand

/-- C1 (counterexample): on the two-element tuple `(u8:1, u8:2)` the sequence
`ExpandTuple; CreateTuple(2)` leaves `(u8:2, u8:1)` on top — not the original
tuple, contradicting the claim that the original tuple is reconstructed. -/
theorem c1_counterexample :
    (evalExpandTuple [InterpValue.tuple [.ubits 8 1, .ubits 8 2]]).bind
        (evalCreateTuple 2)
      = .ok [InterpValue.tuple [.ubits 8 2, .ubits 8 1]] ∧
    InterpValue.tuple [.ubits 8 2, .ubits 8 1]
      ≠ InterpValue.tuple [.ubits 8 1, .ubits 8 2] := by
  refine ⟨rfl, ?_⟩
  simp

/-- C1 (amended): for every tuple value `t` of length `n` on top of the
stack, `ExpandTuple` followed by `CreateTuple(n)` leaves the rest of the
stack unchanged with the REVERSED tuple on top (`ExpandTuple` pushes so that
element 0 is on top, and `CreateTuple` makes the deepest popped value element
0); the original tuple is reconstructed only when it is palindromic. -/
theorem c1_amended (elts stack : List InterpValue) :
    (evalExpandTuple (.tuple elts :: stack)).bind (evalCreateTuple elts.length)
      = .ok (.tuple elts.reverse :: stack) := by
  simp only [evalExpandTuple, Except.bind, evalCreateTuple]
  rw [if_pos (by simp)]
  simp [List.take_left, List.drop_left]

section StoreClaims

/-! ### C3: Store slot auto-extension -/

example : evalStore 1 [.ubits 8 7] [] = .error .internal := rfl
example : evalStore 0 [.ubits 8 7] [] = .ok ([], [.ubits 8 7]) := rfl

end StoreClaims

/-- C3 (counterexample): storing into slot 1 of a frame with zero slots does
NOT append `Token` padding up through index 1 — `StoreSlot` appends exactly
one `Token` and then `slots_.at(1)` on a one-element vector is out of range
(an abort, modelled `internal`), so the store does not succeed for every
index `i` with `|slots| ≤ i`. -/
theorem c3_counterexample :
    evalStore 1 [.ubits 8 7] [] = .error .internal := rfl

/-- C3 (amended): `Store(i)` pops the value and appends exactly ONE `Token`
when `|slots| ≤ i`; the store succeeds precisely when `i ≤ |slots|`, writing
the popped value into slot `i`, and is an out-of-range abort for any larger
`i`. -/
theorem c3_amended (i : Nat) (v : InterpValue) (stack slots : List InterpValue) :
    evalStore i (v :: stack) slots =
      if i ≤ slots.length then
        .ok (stack,
          (if slots.length ≤ i then slots ++ [.token] else slots).set i v)
      else .error .internal := by
  by_cases hg : slots.length ≤ i
  · by_cases h : i ≤ slots.length
    · have hi : i < slots.length + 1 := by omega
      simp [evalStore, storeSlot, hg, h, hi]
    · have hi : ¬ i < slots.length + 1 := by omega
      simp [evalStore, storeSlot, hg, h, hi]
  · have h : i ≤ slots.length := by omega
    have hi : i < slots.length := by omega
    simp [evalStore, storeSlot, hg, h, hi]

/-! ### Cast (`BytecodeInterpreter::EvalCast`) -/

/-- The `ConcreteType` payload hierarchy, as a tagged sum (only the variants
`EvalCast`/`EvalWidthSlice` dispatch on; `tokenT` stands for every other
variant, each of which casts to `invalid-argument`). -/
inductive ConcreteTypeM where
  | bitsT (signed : Bool) (width : Nat)
  | arrayT (elemWidth : Nat) (size : Nat)
  | enumT (signed : Bool) (width : Nat)
  | tokenT
  deriving DecidableEq, Repr

/-- `ConcreteType::GetTotalBitCount` for the modelled variants. -/
def ConcreteTypeM.totalBitCount : ConcreteTypeM → Nat
  | .bitsT _ w => w
  | .arrayT ew n => ew * n
  | .enumT _ w => w
  | .tokenT => 0

/-- `InterpValue::SignExt` on the stored pattern: re-encode the
two's-complement reading of a width-`w` pattern at width `w2` (despite the
name it also shrinks, per the comment in `EvalCast`). -/
def signExtPat (w w2 p : Nat) : Nat :=
  ((InterpValue.patToInt w p).emod (2 ^ w2)).toNat

/-- `InterpValue::ZeroExt` on the stored pattern (also shrinks). -/
def zeroExtPat (w2 p : Nat) : Nat := p % 2 ^ w2

/-- Modelled from the spec: `InterpValue::Flatten` (`interp_value.cc` is not
in the sources) — flatten an array of bits values row-major (element 0 in the
high bits) into one unsigned bits value of the summed width. -/
def flattenList (elts : List InterpValue) : Except ErrKind (Nat × Nat) :=
  match elts with
  | [] => .ok (0, 0)
  | v :: rest =>
    match v.getBits? with
    | none => .error .invalidArgument
    | some (w, p) =>
      match flattenList rest with
      | .error e => .error e
      | .ok (wr, pr) => .ok (w + wr, p * 2 ^ wr + pr)

/-- Modelled from the spec: `CastBitsToArray` (`interp_value_helpers.cc` is
not in the sources) — split a width-`ew*n` bits value into `n` unsigned
elements of width `ew`, element 0 from the high bits. -/
def castBitsToArray (ew n p : Nat) : List InterpValue :=
  (List.range n).map fun i => .ubits ew (p / 2 ^ ((n - 1 - i) * ew) % 2 ^ ew)

/-- `EvalCast` for a bits-typed `from` (the tail of
`BytecodeInterpreter::EvalCast`): bits→array checks the total bit count;
bits→enum keeps the stored bits (`CastBitsToEnum`, no range check); bits→bits
keeps the pattern at equal widths and otherwise sign- or zero-extends (or
shrinks) according to the SOURCE signedness, tagging the result with the
target signedness. -/
def castFromBits (signed : Bool) (w p : Nat) (toT : ConcreteTypeM) :
    Except ErrKind InterpValue :=
  match toT with
  | .arrayT ew n =>
    if w = ConcreteTypeM.totalBitCount (.arrayT ew n) then
      .ok (.array (castBitsToArray ew n p))
    else .error .invalidArgument
  | .enumT es _ => .ok (.enumv es w p)
  | .bitsT ts tw =>
    let resPat := if w = tw then p
      else if signed then signExtPat w tw p else zeroExtPat tw p
    .ok (mkBits ts tw resPat)
  | .tokenT => .error .invalidArgument

/-- `BytecodeInterpreter::EvalCast`: pop `from`; array→bits flattens (the
flatten result is pushed as-is); enum→bits pushes
`MakeBits(from.IsSigned(), from.GetBitsOrDie())` — i.e. the ENUM's
signedness; bits-typed `from` continues in `castFromBits`; anything else is
invalid-argument. -/
def evalCast (toT : ConcreteTypeM) (stack : List InterpValue) :
    Except ErrKind (List InterpValue) :=
  match stack with
  | [] => .error .internal
  | fromV :: rest =>
    match fromV with
    | .array elts =>
      match toT with
      | .bitsT _ _ =>
        match flattenList elts with
        | .error e => .error e
        | .ok (w, p) => .ok (.ubits w p :: rest)
      | _ => .error .invalidArgument
    | .enumv s w p =>
      match toT with
      | .bitsT _ _ => .ok (mkBits s w p :: rest)
      | _ => .error .invalidArgument
    | .ubits w p =>
      match castFromBits false w p toT with
      | .error e => .error e
      | .ok v => .ok (v :: rest)
    | .sbits w p =>
      match castFromBits true w p toT with
      | .error e => .error e
      | .ok v => .ok (v :: rest)
    | _ => .error .invalidArgument

section CastClaims

/-! ### C4: Enum → Bits cast signedness -/

example : evalCast (.bitsT false 8) [.enumv true 8 255] = .ok [.sbits 8 255] :=
  rfl
example : evalCast (.bitsT true 4) [.enumv false 4 3] = .ok [.ubits 4 3] :=
  rfl

end CastClaims

/-- C4 (counterexample): casting an enum with a SIGNED underlying type to the
unsigned bits type `u8` pushes a signed-tagged value (`from.IsSigned()` is
used), not the unsigned tag of the target type as the claim states. -/
theorem c4_counterexample :
    evalCast (.bitsT false 8) [.enumv true 8 255] = .ok [.sbits 8 255] ∧
    (InterpValue.sbits 8 255 : InterpValue) ≠ .ubits 8 255 := by
  refine ⟨rfl, ?_⟩
  simp

/-- C4 (amended): for every enum value on top of the stack and every bits
target type, `Cast` pushes a bits value whose stored bits equal the enum's
underlying bits and whose signedness is that of the SOURCE enum (the target
type's signedness is ignored). -/
theorem c4_amended (es : Bool) (w p : Nat) (ts : Bool) (tw : Nat)
    (stack : List InterpValue) :
    evalCast (.bitsT ts tw) (.enumv es w p :: stack)
      = .ok (mkBits es w p :: stack) ∧
    (mkBits es w p).isSignedTag = es ∧
    (mkBits es w p).getBits? = some (w, p) := by
  refine ⟨rfl, ?_, ?_⟩ <;> cases es <;> rfl

/-! ### Channels (`BytecodeInterpreter::EvalRecv`) -/

/-- The shared-FIFO store: channel handle `id` aliases `channels[id]`.  The
C++ shares the FIFO by `shared_ptr`; here the value carries the index and the
store is threaded explicitly. -/
abbrev ChannelStore := List (List InterpValue)

/-- `BytecodeInterpreter::EvalRecv`: pop the channel handle; an empty FIFO is
an `unavailable` error (nothing is mutated besides the pop); otherwise the
FIFO head is pushed onto the stack and popped from the FIFO.  A dangling
handle cannot arise in the C++ (`shared_ptr`); it is modelled `internal`. -/
def evalRecv (stack : List InterpValue) (channels : ChannelStore) :
    Except ErrKind (List InterpValue) × ChannelStore :=
  match stack with
  | [] => (.error .internal, channels)
  | v :: rest =>
    match v with
    | .channel id =>
      match channels.get? id with
      | none => (.error .internal, channels)
      | some fifo =>
        match fifo with
        | [] => (.error .unavailable, channels)
        | h :: t => (.ok (h :: rest), channels.set id t)
    | _ => (.error .invalidArgument, channels)

section RecvClaims

example : evalRecv [.channel 0] [[]] = (.error .unavailable, [[]]) := rfl
example :
    evalRecv [.channel 0] [[.ubits 8 5, .ubits 8 6]]
      = (.ok [.ubits 8 5], [[.ubits 8 6]]) := rfl

end RecvClaims

/-- C9: with a channel handle on top of the stack, `Recv` returns an
`unavailable` error exactly when the channel's FIFO is empty (leaving the
channel store untouched in that case), and otherwise removes the FIFO's head
element and pushes it onto the stack. -/
theorem c9_recv (stack : List InterpValue) (channels : ChannelStore)
    (id : Nat) (fifo : List InterpValue)
    (hch : channels[id]? = some fifo) :
    (fifo = [] →
      evalRecv (.channel id :: stack) channels = (.error .unavailable, channels)) ∧
    (∀ x t, fifo = x :: t →
      evalRecv (.channel id :: stack) channels
        = (.ok (x :: stack), channels.set id t)) := by
  constructor
  · intro he
    subst he
    simp [evalRecv, hch]
  · intro x t he
    subst he
    simp [evalRecv, hch]

/-- C9 (witness): both branches of `c9_recv` at concrete channel stores. -/
theorem c9_recv_witness :
    evalRecv [.channel 0] [[]] = (.error .unavailable, [[]]) ∧
    evalRecv [.channel 0] [[.ubits 8 5]] = (.ok [.ubits 8 5], [[]]) :=
  ⟨(c9_recv [] [[]] 0 [] rfl).1 rfl,
   (c9_recv [] [[.ubits 8 5]] 0 [.ubits 8 5] rfl).2 (.ubits 8 5) [] rfl⟩

/-! ### Pattern matching (`BytecodeInterpreter::MatchArmEqualsInterpValue`) -/

/-- `Bytecode::MatchArmItem`: the recursive pattern payload. -/
inductive MatchArmItem where
  | interpValue (v : InterpValue)
  | load (slot : Nat)
  | store (slot : Nat)
  | wildcard
  | tupleItem (elts : List MatchArmItem)

mutual

/-- `BytecodeInterpreter::MatchArmEqualsInterpValue`, threading the frame's
slot vector: `InterpValue` items compare with `Eq`; `Load` compares against
the slot (internal error when out of range); `Store` ALWAYS matches and
writes the candidate into the slot via `StoreSlot`; `Wildcard` always
matches; tuple items fetch the candidate's children (`GetValues`, an error on
a non-aggregate) and recurse element-wise after a length check. -/
def matchItem (slots : List InterpValue) :
    MatchArmItem → InterpValue → Option (Bool × List InterpValue)
  | .interpValue v, cand => some (valueEq v cand, slots)
  | .load i, cand =>
    match slots.get? i with
    | none => none
    | some sv => some (valueEq sv cand, slots)
  | .store i, cand =>
    match storeSlot i cand slots with
    | some s => some (true, s)
    | none => none
  | .wildcard, _ => some (true, slots)
  | .tupleItem items, cand =>
    match cand.getValues? with
    | none => none
    | some vals =>
      if items.length = vals.length then matchItems slots items vals else none

/-- The element-wise loop inside the tuple case: left to right, stopping at
the first sub-item whose recursive result is `false`, keeping every slot
write performed so far. -/
def matchItems (slots : List InterpValue) :
    List MatchArmItem → List InterpValue → Option (Bool × List InterpValue)
  | [], _ => some (true, slots)
  | _ :: _, [] => none
  | i :: is, v :: vs =>
    match matchItem slots i v with
    | none => none
    | some (false, s) => some (false, s)
    | some (true, s) => matchItems s is vs

end

/-- `BytecodeInterpreter::EvalMatchArm`: pop the matchee, run the pattern
against it, and push the 1-bit boolean result; the (possibly partially
written) slot vector is the frame's state afterwards. -/
def evalMatchArm (item : MatchArmItem) (stack slots : List InterpValue) :
    Except ErrKind (List InterpValue × List InterpValue) :=
  match stack with
  | [] => .error .internal
  | m :: rest =>
    match matchItem slots item m with
    | none => .error .internal
    | some (b, slots2) => .ok (mkBool b :: rest, slots2)

section MatchClaims

/-- Spec scenario E: candidate `(u8:1, u8:2)`, pattern
`Tuple[InterpValue(u8:1), Store(0)]` — pushes true, slot 0 = `u8:2`. -/
example :
    evalMatchArm (.tupleItem [.interpValue (.ubits 8 1), .store 0])
        [.tuple [.ubits 8 1, .ubits 8 2]] []
      = .ok ([mkBool true], [.ubits 8 2]) := rfl

/-- A failing second sub-item: the store performed by the first sub-item
persists even though the arm pushes false. -/
example :
    evalMatchArm (.tupleItem [.store 0, .interpValue (.ubits 8 1)])
        [.tuple [.ubits 8 2, .ubits 8 3]] []
      = .ok ([mkBool false], [.ubits 8 2]) := rfl

end MatchClaims

/-- Helper for C5: a successful all-true prefix run extends over one more
failing item, short-circuiting with the threaded slot state. -/
theorem matchItems_prefix_fail (bad : MatchArmItem) (badV : InterpValue)
    (post : List MatchArmItem) (postV : List InterpValue)
    (s2 : List InterpValue) :
    ∀ (pre : List MatchArmItem) (preV : List InterpValue)
      (s0 s : List InterpValue),
      pre.length = preV.length →
      matchItems s0 pre preV = some (true, s) →
      matchItem s bad badV = some (false, s2) →
      matchItems s0 (pre ++ bad :: post) (preV ++ badV :: postV)
        = some (false, s2) := by
  intro pre
  induction pre with
  | nil =>
    intro preV s0 s hlen hpre hbad
    have : preV = [] := by
      cases preV with
      | nil => rfl
      | cons a as => simp at hlen
    subst this
    simp only [matchItems] at hpre
    have hs : s0 = s := by
      have := hpre
      injection this with h1
      exact congrArg Prod.snd h1
    subst hs
    simp [matchItems, hbad]
  | cons i is ih =>
    intro preV s0 s hlen hpre hbad
    cases preV with
    | nil => simp at hlen
    | cons v vs =>
      simp only [matchItems] at hpre
      cases hmi : matchItem s0 i v with
      | none => rw [hmi] at hpre; exact absurd hpre (by simp)
      | some bs =>
        rw [hmi] at hpre
        obtain ⟨b, s1⟩ := bs
        cases b with
        | false => simp at hpre
        | true =>
          simp only [List.cons_append, matchItems, hmi]
          exact ih vs s1 s (by simpa using hlen) hpre hbad

/-- C5: for a tuple-shaped `MatchArm` pattern and a candidate tuple of the
same length, sub-items are evaluated left to right and evaluation stops at
the first non-matching sub-item (`post`/`postV` are never examined); every
`Store` sub-item visited while the prefix matched has already written the
corresponding candidate element into its frame slot, and those writes — the
threaded slot state `s`, mutated once more by the failing item itself —
persist in the frame after the arm pushes false. -/
theorem c5_match_partial_stores (pre post : List MatchArmItem)
    (bad : MatchArmItem) (preV postV : List InterpValue) (badV : InterpValue)
    (s0 s s2 stack : List InterpValue)
    (hlen : pre.length = preV.length)
    (hplen : post.length = postV.length)
    (hpre : matchItems s0 pre preV = some (true, s))
    (hbad : matchItem s bad badV = some (false, s2)) :
    evalMatchArm (.tupleItem (pre ++ bad :: post))
        (.tuple (preV ++ badV :: postV) :: stack) s0
      = .ok (mkBool false :: stack, s2) := by
  have hrun := matchItems_prefix_fail bad badV post postV s2 pre preV s0 s
    hlen hpre hbad
  have hlens : (pre ++ bad :: post).length = (preV ++ badV :: postV).length := by
    simp [hlen, hplen]
  simp [evalMatchArm, matchItem, getValues?, hlens, hrun]

/-- C5 (witness): pattern `Tuple[Store(0), InterpValue(u8:1)]` against
candidate `(u8:2, u8:3)`: the store of `u8:2` into slot 0 persists while the
arm pushes false. -/
theorem c5_match_partial_stores_witness :
    evalMatchArm (.tupleItem [.store 0, .interpValue (.ubits 8 1)])
        [.tuple [.ubits 8 2, .ubits 8 3]] []
      = .ok ([mkBool false], [.ubits 8 2]) :=
  c5_match_partial_stores [.store 0] [] (.interpValue (.ubits 8 1))
    [.ubits 8 2] [] (.ubits 8 3) [] [.ubits 8 2] [.ubits 8 2] []
    rfl rfl rfl rfl

/-! ### WidthSlice (`BytecodeInterpreter::EvalWidthSlice`) -/

/-- `BytecodeInterpreter::EvalWidthSlice` for a target bits type
`{tw, tsgn}`: pop `start`; when `start` does not fit in a `uint64` the
out-of-bounds value `UBits(tw, 0)` is pushed and the basis is left on the
stack (only one pop).  Otherwise pop the basis; a start index at or past the
basis width also pushes `UBits(tw, 0)`; otherwise the basis is zero-extended
to `start + tw` when needed and the `tw`-wide window at `start` is pushed
with the target's signedness tag (zero extension leaves the pattern
unchanged, so both in-range and extended windows are
`(bval >>> start) % 2 ^ tw`). -/
def evalWidthSlice (tw : Nat) (tsgn : Bool) (stack : List InterpValue) :
    Except ErrKind (List InterpValue) :=
  match stack with
  | [] => .error .internal
  | start :: rest =>
    match start.getBits? with
    | none => .error .invalidArgument
    | some (_, sval) =>
      if sval < 2 ^ 64 then
        match rest with
        | [] => .error .internal
        | basis :: rest2 =>
          match basis.getBits? with
          | none => .error .invalidArgument
          | some (bw, bval) =>
            if bw ≤ sval then .ok (.ubits tw 0 :: rest2)
            else .ok (mkBits tsgn tw ((bval >>> sval) % 2 ^ tw) :: rest2)
      else .ok (.ubits tw 0 :: rest)

section WidthSliceClaims

example :
    evalWidthSlice 4 false [.ubits 8 2, .ubits 8 202]
      = .ok [.ubits 4 ((202 >>> 2) % 16)] := rfl
example :
    evalWidthSlice 4 true [.ubits 8 8, .ubits 8 202] = .ok [.ubits 4 0] := rfl

end WidthSliceClaims

/-- C6 (counterexample): target type `s4` (signed), basis `u8:202`, start
`u8:8`: `start ≥ basis_width`, and the pushed out-of-bounds value is the
UNSIGNED `UBits(4, 0)` — its signedness tag is not the target type's, so the
claim's "in all cases the pushed value's signedness tag is the target
type's" fails. -/
theorem c6_counterexample :
    evalWidthSlice 4 true [.ubits 8 8, .ubits 8 202] = .ok [.ubits 4 0] ∧
    (InterpValue.ubits 4 0 : InterpValue) ≠ .sbits 4 0 := by
  refine ⟨rfl, ?_⟩
  simp

/-- C6 (amended): `WidthSlice` pops `start` then `basis`; a start past the
basis width pushes an UNSIGNED zero of the target width (the target
signedness is only applied on the in-range window); when `start` does not
fit in a `uint64` the basis is not even popped (one pop, one push); only the
in-range case `start < basis_width` pushes the `tw`-wide window at `start`
(zero-extending when `start + tw > basis_width`) tagged with the target
signedness. -/
theorem c6_amended (tw : Nat) (tsgn ssgn bsgn : Bool) (sw sval bw bval : Nat)
    (stack : List InterpValue) :
    evalWidthSlice tw tsgn (mkBits ssgn sw sval :: mkBits bsgn bw bval :: stack)
      = if sval < 2 ^ 64 then
          if bw ≤ sval then .ok (.ubits tw 0 :: stack)
          else .ok (mkBits tsgn tw ((bval >>> sval) % 2 ^ tw) :: stack)
        else .ok (.ubits tw 0 :: mkBits bsgn bw bval :: stack) := by
  cases ssgn <;> cases bsgn <;> rfl

/-! ### Trace/Fail formatting (`BytecodeInterpreter::TraceDataToString`) -/

/-- One element of `Bytecode::TraceData`: a literal string or a format
preference (the preference itself is opaque to the interpreter core and is
only handed to the external renderer). -/
inductive TraceElem where
  | lit (s : String)
  | fmt (pref : Nat)

/-- `absl::StrJoin(pieces, "")`: concatenation of the pieces. -/
def strConcat (pieces : List String) : String :=
  pieces.foldr (fun a b => a ++ b) ""

/-- The body of the `TraceDataToString` loop for every index `i ≠ 0`,
processing the elements RIGHT-TO-LEFT (the loop runs `i = n-1` down to `0`):
a literal is `push_front`-ed and then a space is `push_back`-ed — appended at
the BACK of the whole deque; a format preference pops one stack value
(`XLS_RET_CHECK` on an empty stack) and `push_front`s its rendering.  The
external `ConvertToIr`/`ToHumanString` rendering is the `render`
parameter. -/
def traceTail (render : Nat → InterpValue → String) :
    List TraceElem → List InterpValue → Option (List String × List InterpValue)
  | [], stack => some ([], stack)
  | e :: rest, stack =>
    match traceTail render rest stack with
    | none => none
    | some (pieces, stack1) =>
      match e with
      | .lit s => some ((s :: pieces) ++ [" "], stack1)
      | .fmt f =>
        match stack1 with
        | [] => none
        | v :: stack2 => some (render f v :: pieces, stack2)

/-- `BytecodeInterpreter::TraceDataToString`: the element at index 0 is
processed last and — unlike every other literal — contributes no space; the
final message is the concatenation of the deque. -/
def traceDataToString (render : Nat → InterpValue → String)
    (td : List TraceElem) (stack : List InterpValue) :
    Option (String × List InterpValue) :=
  match td with
  | [] => some ("", stack)
  | e :: rest =>
    match traceTail render rest stack with
    | none => none
    | some (pieces, stack1) =>
      match e with
      | .lit s => some (strConcat (s :: pieces), stack1)
      | .fmt f =>
        match stack1 with
        | [] => none
        | v :: stack2 => some (strConcat (render f v :: pieces), stack2)

/-- Like `traceTail` but with no space bookkeeping: the rendered pieces in
original left-to-right order, popping one stack value per format preference
(right-to-left). -/
def tailPieces (render : Nat → InterpValue → String) :
    List TraceElem → List InterpValue → Option (List String × List InterpValue)
  | [], stack => some ([], stack)
  | e :: rest, stack =>
    match tailPieces render rest stack with
    | none => none
    | some (pieces, stack1) =>
      match e with
      | .lit s => some (s :: pieces, stack1)
      | .fmt f =>
        match stack1 with
        | [] => none
        | v :: stack2 => some (render f v :: pieces, stack2)

/-- The number of literal elements of a `TraceData` segment. -/
def litCount : List TraceElem → Nat
  | [] => 0
  | .lit _ :: rest => litCount rest + 1
  | .fmt _ :: rest => litCount rest

section TraceClaims

example :
    traceDataToString (fun _ _ => "1") [.lit "a", .fmt 0] [.ubits 8 5]
      = some ("a1", []) := rfl
example :
    traceDataToString (fun _ _ => "1") [.fmt 0, .lit "b"] [.ubits 8 5]
      = some ("1b ", []) := rfl

end TraceClaims

/-- C7 (counterexample): trace data `[literal "a", format]` over the stack
`[u8:5]`: the rendered message is `"a1"` — the literal is NOT followed by a
single space before the rendered item (the claim's reading would produce
`"a 1"`); the space `push_back` lands at the end of the whole message, and
for a literal at index 0 no space is emitted at all. -/
theorem c7_counterexample :
    traceDataToString (fun _ _ => "1") [.lit "a", .fmt 0] [.ubits 8 5]
      = some ("a1", []) ∧ "a1" ≠ "a 1" := by
  refine ⟨rfl, ?_⟩
  decide

/-- Helper for C7: the loop body for indices `≠ 0` produces the left-to-right
pieces followed by one trailing space per literal of the segment. -/
theorem traceTail_eq_tailPieces (render : Nat → InterpValue → String) :
    ∀ (td : List TraceElem) (stack : List InterpValue),
      traceTail render td stack =
        (tailPieces render td stack).map
          (fun ps => (ps.1 ++ List.replicate (litCount td) " ", ps.2)) := by
  intro td
  induction td with
  | nil => intro stack; rfl
  | cons e rest ih =>
    intro stack
    simp only [traceTail, tailPieces, ih stack]
    cases htp : tailPieces render rest stack with
    | none => simp
    | some ps =>
      obtain ⟨pieces, stack1⟩ := ps
      cases e with
      | lit s => simp [litCount, List.replicate_succ']
      | fmt f =>
        cases stack1 with
        | nil => simp [litCount]
        | cons v stack2 => simp [litCount]

/-- Concatenation distributes over a `foldr` append with seed `b`. -/
theorem strConcat_foldr (b : String) :
    ∀ l : List String, l.foldr (fun a c => a ++ c) b = strConcat l ++ b := by
  intro l
  induction l with
  | nil => simp [strConcat]
  | cons a l ih => simp [strConcat, ih, String.append_assoc]

/-- `strConcat` of a cons. -/
theorem strConcat_cons (a : String) (l : List String) :
    strConcat (a :: l) = a ++ strConcat l := rfl

/-- `strConcat` distributes over list append. -/
theorem strConcat_append (l1 l2 : List String) :
    strConcat (l1 ++ l2) = strConcat l1 ++ strConcat l2 := by
  unfold strConcat
  rw [List.foldr_append, strConcat_foldr]
  rfl

/-! ### Slice (`BytecodeInterpreter::EvalSlice`) -/

/-- The stored pattern of `MakeSBits(w, x)` / `MakeUBits(w, x)` for an
integer `x`: the two's-complement encoding `x mod 2 ^ w`. -/
def encodePat (w : Nat) (x : Int) : Nat := (x % (2 ^ w : Int)).toNat

/-- Modelled from the spec: `InterpValue::Lt` (`interp_value.cc` is not in
the sources) — the signedness of the LEFT operand governs the comparison
(spec section 4.5).  Both call sites in `EvalSlice` compare bits-typed
values; non-bits operands yield `false` (unreachable there). -/
def ltVal (a b : InterpValue) : Bool :=
  match a.getBits?, b.getBits? with
  | some (wa, pa), some (wb, pb) =>
    if a.isSignedTag then decide (patToInt wa pa < patToInt wb pb)
    else decide (pa < pb)
  | _, _ => false

/-- Modelled from the spec: `InterpValue::Ge`, dual of `ltVal`. -/
def geVal (a b : InterpValue) : Bool :=
  match a.getBits?, b.getBits? with
  | some (wa, pa), some (wb, pb) =>
    if a.isSignedTag then decide (patToInt wb pb ≤ patToInt wa pa)
    else decide (pb ≤ pa)
  | _, _ => false

/-- Modelled from the spec: `InterpValue::Add` — width-preserving wrap-around
addition; the result's width and signedness come from the left operand.
Non-bits operands are unreachable at the call sites (`.token`). -/
def addVal (a b : InterpValue) : InterpValue :=
  match a.getBits?, b.getBits? with
  | some (wa, pa), some (_, pb) => mkBits a.isSignedTag wa ((pa + pb) % 2 ^ wa)
  | _, _ => .token

/-- Modelled from the spec: `InterpValue::Sub` — width-preserving wrap-around
subtraction, width and signedness from the left operand. -/
def subVal (a b : InterpValue) : InterpValue :=
  match a.getBits?, b.getBits? with
  | some (wa, pa), some (_, pb) =>
    mkBits a.isSignedTag wa ((((pa : Int) - pb) % (2 ^ wa : Int)).toNat)
  | _, _ => .token

/-- `InterpValue::GetBitValueInt64`: the two's-complement (signed) reading of
the stored bits, independent of the signedness tag (`Bits::ToInt64`). -/
def getBitValueInt64? (v : InterpValue) : Option Int :=
  v.getBits?.map fun wp => patToInt wp.1 wp.2

/-- `BytecodeInterpreter::EvalSlice`: pop `limit`, `start`, `basis`.  A
negative `start` (per its own signedness) is shifted by the basis width and
clamped at zero from below; likewise `limit`; a `limit` at or past the basis
width is replaced by `MakeSBits(sbc, basis_width)`.  The length is
`limit - start` (wrap-around); `XLS_RET_CHECK_GE` demands the signed readings
of `start` and of the length be non-negative (an `internal` error otherwise
— there is no clamp of the length at zero); then `start` and the length are
re-tagged unsigned and `basis.Slice(start, length)` pushes the unsigned
window of width `length` at bit offset `start` (in bounds in the ok path). -/
def evalSlice (stack : List InterpValue) : Except ErrKind (List InterpValue) :=
  match stack with
  | limit :: start :: basis :: rest =>
    match basis.getBits?, start.getBits? with
    | some (bw, bval), some (sbc, _) =>
      let zero := InterpValue.sbits sbc 0
      let blen := InterpValue.sbits sbc (bw % 2 ^ sbc)
      let startA :=
        if ltVal start zero then
          let s1 := addVal blen start
          if ltVal s1 zero then zero else s1
        else start
      let limitA :=
        if ltVal limit zero then
          let l1 := addVal blen limit
          if ltVal l1 zero then zero else l1
        else limit
      let limitB := if geVal limitA blen then InterpValue.sbits sbc (bw % 2 ^ sbc)
        else limitA
      let length := subVal limitB startA
      match getBitValueInt64? startA, getBitValueInt64? length with
      | some sv, some lv =>
        if 0 ≤ sv then
          if 0 ≤ lv then
            match startA.getBits?, length.getBits? with
            | some (_, sp), some (_, lp) =>
              .ok (.ubits lp ((bval >>> sp) % 2 ^ lp) :: rest)
            | _, _ => .error .invalidArgument
          else .error .internal
        else .error .internal
      | _, _ => .error .invalidArgument
    | _, _ => .error .invalidArgument
  | _ => .error .internal

section SliceClaims

/-- Spec scenario D shape: basis `u8:0b11001010`, start `s8:-4` (pattern
252), limit `s8:-1` (pattern 255): adjusted start 4, limit 7, width 3. -/
example :
    evalSlice [.sbits 8 255, .sbits 8 252, .ubits 8 0xCA]
      = .ok [.ubits 3 ((0xCA >>> 4) % 8)] := rfl

/-- Adjusted start past adjusted limit: `XLS_RET_CHECK_GE(length, 0)`
fails. -/
example :
    evalSlice [.sbits 8 2, .sbits 8 5, .ubits 8 0xCA] = .error .internal := rfl

end SliceClaims

/-- C2 (counterexample): basis `u8:0b11001010`, start `s8:5`, limit `s8:2`
(both already in `[0, 8]`, no adjustment applies): the claim demands success
with an empty unsigned result of width `max(0, 2 - 5) = 0`, but the code's
`XLS_RET_CHECK_GE(length_value, 0)` fails on the wrap-around length `-3` and
`EvalSlice` returns an internal error, pushing nothing. -/
theorem c2_counterexample :
    evalSlice [.sbits 8 2, .sbits 8 5, .ubits 8 0xCA] = .error .internal ∧
    (Except.error .internal : Except ErrKind (List InterpValue))
      ≠ .ok [.ubits 0 0] := by
  refine ⟨rfl, ?_⟩
  simp

/-- The encoded pattern, cast back to `Int`, is `x mod 2 ^ w`. -/
theorem encodePat_cast (w : Nat) (x : Int) :
    (encodePat w x : Int) = x % (2 ^ w : Int) :=
  Int.toNat_of_nonneg (Int.emod_nonneg x (by positivity))

/-- Round trip: decoding the two's-complement encoding of an in-range
integer gives it back. -/
theorem patToInt_encodePat (w : Nat) (x : Int) (hw : 1 ≤ w)
    (h1 : -(2 ^ (w - 1)) ≤ x) (h2 : x < 2 ^ (w - 1)) :
    patToInt w (encodePat w x) = x := by
  have hMeq : (2 : Int) ^ w = 2 ^ (w - 1) * 2 := by
    rw [← pow_succ]
    congr 1
    omega
  have hpos : (0 : Int) < 2 ^ (w - 1) := by positivity
  unfold patToInt
  by_cases hx : 0 ≤ x
  · have hlt : x < 2 ^ w := by rw [hMeq]; linarith
    have hcast : (encodePat w x : Int) = x := by
      rw [encodePat_cast, Int.emod_eq_of_lt hx hlt]
    have hc : encodePat w x < 2 ^ (w - 1) := by
      zify
      rw [hcast]
      exact h2
    rw [if_pos hc, hcast]
  · have hx0 : x < 0 := by omega
    have hmod : x % (2 ^ w : Int) = x + 2 ^ w := by
      have h3 : (x + 2 ^ w * 1) % (2 ^ w : Int) = x % (2 ^ w : Int) :=
        Int.add_mul_emod_self_left x (2 ^ w) 1
      have h4 : (0 : Int) ≤ x + 2 ^ w := by rw [hMeq]; linarith
      have h5 : x + 2 ^ w < 2 ^ w := by linarith
      rw [← Int.emod_eq_of_lt h4 h5]
      rw [mul_one] at h3
      rw [h3]
    have hcast : (encodePat w x : Int) = x + 2 ^ w := by
      rw [encodePat_cast, hmod]
    have hc : ¬ encodePat w x < 2 ^ (w - 1) := by
      zify
      rw [hcast, hMeq]
      linarith
    rw [if_neg hc, hcast]
    ring

/-- Encoding of a small non-negative integer is its `toNat`. -/
theorem encodePat_of_nonneg (w : Nat) (x : Int) (hw : 1 ≤ w)
    (h1 : 0 ≤ x) (h2 : x < 2 ^ (w - 1)) : encodePat w x = x.toNat := by
  have hMeq : (2 : Int) ^ w = 2 ^ (w - 1) * 2 := by
    rw [← pow_succ]
    congr 1
    omega
  have hpos : (0 : Int) < 2 ^ (w - 1) := by positivity
  unfold encodePat
  rw [Int.emod_eq_of_lt h1 (by rw [hMeq]; linarith)]

/-- The encoded pattern of a natural number: `MakeSBits(w, bw)` stores
`bw % 2 ^ w = encodePat w bw`. -/
theorem encodePat_natCast (w bw : Nat) :
    encodePat w (bw : Int) = bw % 2 ^ w := by
  unfold encodePat
  have h : ((bw : Int)) % ((2 : Int) ^ w) = ((bw % 2 ^ w : Nat) : Int) := by
    push_cast
    rfl
  rw [h]
  exact Int.toNat_natCast _

/-- Wrap-around addition of encoded patterns encodes the integer sum. -/
theorem encodePat_add (w bw : Nat) (x : Int) :
    (bw % 2 ^ w + encodePat w x) % 2 ^ w = encodePat w (x + bw) := by
  have h : (((bw % 2 ^ w + encodePat w x) % 2 ^ w : Nat) : Int)
      = (x + bw) % (2 ^ w : Int) := by
    push_cast [encodePat_cast]
    rw [← Int.add_emod]
    rw [Int.add_comm]
  have h2 : ((bw % 2 ^ w + encodePat w x) % 2 ^ w : Nat)
      = ((x + bw) % (2 ^ w : Int)).toNat := by
    rw [← h, Int.toNat_natCast]
  exact h2

/-- Wrap-around subtraction of encoded patterns encodes the difference. -/
theorem encodePat_sub (w : Nat) (x y : Int) :
    (((encodePat w x : Int) - encodePat w y) % (2 ^ w : Int)).toNat
      = encodePat w (x - y) := by
  rw [encodePat_cast, encodePat_cast, ← Int.sub_emod]
  rfl

/-- The net slice behavior (C2 as amended), written over the integer
readings `si`/`li` of start and limit: a negative bound is shifted by the
basis width and clamped at zero from below; a limit at or past the width is
clamped to the width; the result is the unsigned window of width
`limit - start` — and an INTERNAL error (not an empty slice) when the
adjusted start exceeds the adjusted limit. -/
def sliceSpec (bw bval : Nat) (si li : Int) : Except ErrKind InterpValue :=
  let s1 : Int := if si < 0 then max (si + bw) 0 else si
  let l1 : Int := if li < 0 then max (li + bw) 0 else li
  let l2 : Int := if bw ≤ l1 then (bw : Int) else l1
  if l2 - s1 < 0 then .error .internal
  else .ok (.ubits (l2 - s1).toNat ((bval >>> s1.toNat) % 2 ^ (l2 - s1).toNat))

/-- Decoding the pattern of the literal zero value. -/
theorem patToInt_zero (w : Nat) : patToInt w 0 = 0 := by
  unfold patToInt
  rw [if_pos (by positivity)]
  rfl

/-- The negative-adjust-and-clamp step of `EvalSlice`, for either bound. -/
theorem slice_adjust (sbc bw : Nat) (x : Int) (hsbc : 1 ≤ sbc)
    (hbw : (bw : Int) < 2 ^ (sbc - 1))
    (hx1 : -(2 ^ (sbc - 1)) ≤ x) (hx2 : x < 2 ^ (sbc - 1)) :
    (if ltVal (InterpValue.sbits sbc (encodePat sbc x)) (.sbits sbc 0) then
       if ltVal (addVal (.sbits sbc (bw % 2 ^ sbc)) (.sbits sbc (encodePat sbc x)))
           (.sbits sbc 0) then
         InterpValue.sbits sbc 0
       else addVal (.sbits sbc (bw % 2 ^ sbc)) (.sbits sbc (encodePat sbc x))
     else .sbits sbc (encodePat sbc x))
    = .sbits sbc (encodePat sbc (if x < 0 then max (x + bw) 0 else x)) := by
  have hpos : (0 : Int) < 2 ^ (sbc - 1) := by positivity
  have hbw0 : (0 : Int) ≤ (bw : Int) := Int.natCast_nonneg bw
  have hlt1 : ltVal (.sbits sbc (encodePat sbc x)) (.sbits sbc 0)
      = decide (x < 0) := by
    simp only [ltVal, getBits?, isSignedTag, if_true,
      patToInt_encodePat sbc x hsbc hx1 hx2, patToInt_zero]
  have hadd : addVal (.sbits sbc (bw % 2 ^ sbc)) (.sbits sbc (encodePat sbc x))
      = .sbits sbc (encodePat sbc (x + bw)) := by
    simp only [addVal, getBits?, isSignedTag, mkBits, if_true, encodePat_add]
  by_cases hA : x < 0
  · have hsum1 : -(2 ^ (sbc - 1)) ≤ x + bw := by linarith
    have hsum2 : x + bw < 2 ^ (sbc - 1) := by linarith
    have hlt2 : ltVal (.sbits sbc (encodePat sbc (x + bw))) (.sbits sbc 0)
        = decide (x + bw < 0) := by
      simp only [ltVal, getBits?, isSignedTag, if_true,
        patToInt_encodePat sbc (x + bw) hsbc hsum1 hsum2, patToInt_zero]
    rw [hlt1, hadd, hlt2]
    by_cases hB : x + bw < 0
    · simp only [hA, hB, decide_True, if_true]
      have hmax : max (x + (bw : Int)) 0 = 0 := by omega
      have h0 : encodePat sbc 0 = 0 := by simp [encodePat]
      rw [hmax, h0]
    · have hmax : max (x + (bw : Int)) 0 = x + bw := by omega
      simp [hA, hB, hmax]
  · rw [hlt1]
    simp [hA]

/-- The limit-clamp step of `EvalSlice`. -/
theorem slice_clamp (sbc bw : Nat) (l1 : Int) (hsbc : 1 ≤ sbc)
    (hbw : (bw : Int) < 2 ^ (sbc - 1))
    (hl1 : 0 ≤ l1) (hl2 : l1 < 2 ^ (sbc - 1)) :
    (if geVal (InterpValue.sbits sbc (encodePat sbc l1))
        (.sbits sbc (bw % 2 ^ sbc)) then
       InterpValue.sbits sbc (bw % 2 ^ sbc)
     else .sbits sbc (encodePat sbc l1))
    = .sbits sbc (encodePat sbc (if (bw : Int) ≤ l1 then (bw : Int) else l1)) := by
  have hpos : (0 : Int) < 2 ^ (sbc - 1) := by positivity
  have hbw0 : (0 : Int) ≤ (bw : Int) := Int.natCast_nonneg bw
  have hblen : patToInt sbc (bw % 2 ^ sbc) = (bw : Int) := by
    rw [← encodePat_natCast]
    exact patToInt_encodePat sbc bw hsbc (by linarith) hbw
  have hge : geVal (.sbits sbc (encodePat sbc l1)) (.sbits sbc (bw % 2 ^ sbc))
      = decide ((bw : Int) ≤ l1) := by
    simp only [geVal, getBits?, isSignedTag, if_true, hblen,
      patToInt_encodePat sbc l1 hsbc (by linarith) hl2]
  rw [hge]
  by_cases hE : (bw : Int) ≤ l1
  · simp only [hE, decide_True, if_true]
    rw [encodePat_natCast]
  · simp [hE]

/-- C2 (amended): `Slice` pops `limit`, `start`, `basis` (signed `sbc`-bit
start and limit, any basis width `bw` representable in them); negative
bounds are adjusted by the basis width and clamped at zero from below;
`limit ≥ bw` is clamped to `bw`; when the adjusted limit is at least the
adjusted start the unsigned window of width `limit - start` is pushed; when
the adjusted start EXCEEDS the adjusted limit the `XLS_RET_CHECK` on the
wrap-around negative length fails with an internal error — not the empty
slice of the original claim. -/
theorem c2_amended (bw bval sbc : Nat) (si li : Int) (rest : List InterpValue)
    (hsbc : 1 ≤ sbc) (hbw : (bw : Int) < 2 ^ (sbc - 1))
    (hsi1 : -(2 ^ (sbc - 1)) ≤ si) (hsi2 : si < 2 ^ (sbc - 1))
    (hli1 : -(2 ^ (sbc - 1)) ≤ li) (hli2 : li < 2 ^ (sbc - 1)) :
    evalSlice (.sbits sbc (encodePat sbc li) :: .sbits sbc (encodePat sbc si)
        :: .ubits bw bval :: rest)
      = (sliceSpec bw bval si li).map (fun v => v :: rest) := by
  have hpos : (0 : Int) < 2 ^ (sbc - 1) := by positivity
  have hbw0 : (0 : Int) ≤ (bw : Int) := Int.natCast_nonneg bw
  simp only [evalSlice, getBits?]
  rw [slice_adjust sbc bw si hsbc hbw hsi1 hsi2,
    slice_adjust sbc bw li hsbc hbw hli1 hli2]
  set S1 : Int := if si < 0 then max (si + bw) 0 else si with hS1
  set L1 : Int := if li < 0 then max (li + bw) 0 else li with hL1
  have hS1a : 0 ≤ S1 := by rw [hS1]; split <;> omega
  have hS1b : S1 < 2 ^ (sbc - 1) := by
    rw [hS1]
    split <;> [skip; exact hsi2]
    rename_i h
    have : si + bw < 2 ^ (sbc - 1) := by linarith
    omega
  have hL1a : 0 ≤ L1 := by rw [hL1]; split <;> omega
  have hL1b : L1 < 2 ^ (sbc - 1) := by
    rw [hL1]
    split <;> [skip; exact hli2]
    rename_i h
    have : li + bw < 2 ^ (sbc - 1) := by linarith
    omega
  rw [slice_clamp sbc bw L1 hsbc hbw hL1a hL1b]
  set L2 : Int := if (bw : Int) ≤ L1 then (bw : Int) else L1 with hL2
  have hL2a : 0 ≤ L2 := by rw [hL2]; split <;> omega
  have hL2b : L2 < 2 ^ (sbc - 1) := by
    rw [hL2]
    split <;> [exact hbw; exact hL1b]
  have hsub : subVal (.sbits sbc (encodePat sbc L2)) (.sbits sbc (encodePat sbc S1))
      = .sbits sbc (encodePat sbc (L2 - S1)) := by
    simp only [subVal, getBits?, isSignedTag, mkBits, if_true, encodePat_sub]
  rw [hsub]
  have hd1 : -(2 ^ (sbc - 1)) ≤ L2 - S1 := by omega
  have hd2 : L2 - S1 < 2 ^ (sbc - 1) := by omega
  simp only [getBitValueInt64?, getBits?, Option.map,
    patToInt_encodePat sbc S1 hsbc (by linarith) hS1b,
    patToInt_encodePat sbc (L2 - S1) hsbc hd1 hd2]
  rw [if_pos hS1a]
  simp only [sliceSpec]
  rw [← hS1, ← hL1, ← hL2]
  by_cases hF : 0 ≤ L2 - S1
  · rw [if_pos hF, if_neg (by omega)]
    rw [encodePat_of_nonneg sbc (L2 - S1) hsbc hF hd2,
      encodePat_of_nonneg sbc S1 hsbc hS1a hS1b]
    rfl
  · rw [if_neg hF, if_pos (by omega)]
    rfl

/-- C7 (amended): Trace/Fail formatting processes the `TraceData` items
right-to-left, popping one stack value per format preference, and the
rendered message equals the pieces concatenated in original left-to-right
order — but the space for each literal at index `> 0` is appended at the END
of the whole message (the `push_back(" ")` of the source), not inserted
between the literal and the item that follows it, and the literal at index 0
gets no space at all. -/
theorem c7_amended (render : Nat → InterpValue → String)
    (td : List TraceElem) (stack : List InterpValue) :
    traceDataToString render td stack =
      match td with
      | [] => some ("", stack)
      | e :: rest =>
        (tailPieces render (e :: rest) stack).map
          (fun ps =>
            (strConcat ps.1 ++ strConcat (List.replicate (litCount rest) " "),
             ps.2)) := by
  cases td with
  | nil => rfl
  | cons e rest =>
    simp only [traceDataToString, tailPieces,
      traceTail_eq_tailPieces render rest stack]
    cases htp : tailPieces render rest stack with
    | none => simp
    | some ps =>
      obtain ⟨pieces, stack1⟩ := ps
      cases e with
      | lit s => simp [strConcat_cons, strConcat_append, String.append_assoc]
      | fmt f =>
        cases stack1 with
        | nil => simp
        | cons v stack2 =>
          simp [strConcat_cons, strConcat_append, String.append_assoc]

/-- C2 (witness): spec scenario D — basis `u8:202`, start `s8:-4` (pattern
252), limit `s8:-1` (pattern 255): adjusted start 4, adjusted limit 7, an
unsigned window of width 3. -/
theorem c2_amended_witness :
    evalSlice [.sbits 8 255, .sbits 8 252, .ubits 8 202]
      = .ok [.ubits 3 4] := by
  have h := c2_amended 8 202 8 (-4) (-1) [] (by norm_num) (by norm_num)
    (by norm_num) (by norm_num) (by norm_num) (by norm_num)
  have e1 : encodePat 8 (-1) = 255 := by decide
  have e2 : encodePat 8 (-4) = 252 := by decide
  rw [e1, e2] at h
  rw [h]
  rfl

/-! ### The dispatch loop (`BytecodeInterpreter::Run` / `Interpret`) -/

/-- The embedded opcode set: the instructions used by the programs the
development runs (the `map` builtin's synthesized body and the top-level
entry).  `call` carries no payload here; its semantics (builtin dispatch or
frame push via the bytecode cache) is the external `CallHandler`. -/
inductive Op where
  | literal (v : InterpValue)
  | pop
  | store (slot : Nat)
  | load (slot : Nat)
  | jumpDest
  | jumpRel (delta : Int)
  | jumpRelIf (delta : Int)
  | index
  | add
  | lt
  | createArray (n : Nat)
  | createTuple (n : Nat)
  | expandTuple
  | call

/-- `BytecodeInterpreter::Frame`: program counter, slots, and the bytecode
body (`type_info`, `bindings` and `bf_holder` are externally-owned and play
no role in the dispatch itself). -/
structure FrameM where
  pc : Int
  slots : List InterpValue
  bf : List Op

/-- Interpreter state: the frame stack (head = `frames_.back()`) and the one
value stack shared by all frames. -/
structure MState where
  frames : List FrameM
  stack : List InterpValue

/-- `EvalCall` resolves the callee (builtin handler or cached user bytecode)
through external collaborators; the dispatch loop only passes the state
through it. -/
abbrev CallHandler := MState → Except ErrKind MState

/-- `BytecodeInterpreter::EvalLoad`: push slot `i`; `internal` error when the
slot index is at or past the slot count. -/
def evalLoad (slot : Nat) (stack slots : List InterpValue) :
    Except ErrKind (List InterpValue) :=
  match slots.get? slot with
  | some v => .ok (v :: stack)
  | none => .error .internal

/-- `BytecodeInterpreter::EvalIndex`: pop `index` then `basis`; only arrays
and tuples may be indexed; `InterpValue::Index` (modelled from the spec,
`interp_value.cc` is not in the sources) reads the index bits unsigned and
fails with invalid-argument when it is at or past the element count — in
particular for ANY index into an empty array. -/
def evalIndexOp (stack : List InterpValue) : Except ErrKind (List InterpValue) :=
  match stack with
  | index :: basis :: rest =>
    match basis.getValues? with
    | none => .error .invalidArgument
    | some elts =>
      match index.getBits? with
      | none => .error .invalidArgument
      | some (_, p) =>
        match elts.get? p with
        | some v => .ok (v :: rest)
        | none => .error .invalidArgument
  | _ => .error .internal

/-- Modelled from the spec: `InterpValue::Add` via `EvalBinop` — pop `rhs`
then `lhs`; width-preserving wrap-around addition with the left operand's
width and signedness (widths must agree). -/
def evalAddOp (stack : List InterpValue) : Except ErrKind (List InterpValue) :=
  match stack with
  | rhs :: lhs :: rest =>
    match lhs.getBits?, rhs.getBits? with
    | some (wl, pl), some (wr, pr) =>
      if wl = wr then
        .ok (mkBits lhs.isSignedTag wl ((pl + pr) % 2 ^ wl) :: rest)
      else .error .invalidArgument
    | _, _ => .error .invalidArgument
  | _ => .error .internal

/-- Modelled from the spec: `InterpValue::Lt` via `EvalBinop` — the left
operand's signedness governs; the result is a 1-bit unsigned boolean. -/
def evalLtOp (stack : List InterpValue) : Except ErrKind (List InterpValue) :=
  match stack with
  | rhs :: lhs :: rest =>
    match lhs.getBits?, rhs.getBits? with
    | some _, some _ => .ok (mkBool (ltVal lhs rhs) :: rest)
    | _, _ => .error .invalidArgument
  | _ => .error .internal

/-- Rebuild the state after an instruction that only touches the stack,
advancing the PC by one (`frame->IncrementPc()` at the end of
`EvalNextInstruction`). -/
def stepStack (fr : FrameM) (rest : List FrameM)
    (r : Except ErrKind (List InterpValue)) : Except ErrKind MState :=
  match r with
  | .error e => .error e
  | .ok s => .ok ⟨⟨fr.pc + 1, fr.slots, fr.bf⟩ :: rest, s⟩

/-- `BytecodeInterpreter::EvalNextInstruction`'s dispatch body for one
instruction: jump instructions set the PC themselves and `call` hands the
whole state to the `CallHandler` (which, as in `EvalCall`, advances the
caller's PC itself); every other opcode increments the PC by one. -/
def evalInstr (callH : CallHandler) (bc : Op) (st : MState) :
    Except ErrKind MState :=
  match st.frames with
  | [] => .error .internal
  | fr :: rest =>
    match bc with
    | .literal v => .ok ⟨⟨fr.pc + 1, fr.slots, fr.bf⟩ :: rest, v :: st.stack⟩
    | .pop =>
      match st.stack with
      | [] => .error .internal
      | _ :: s => .ok ⟨⟨fr.pc + 1, fr.slots, fr.bf⟩ :: rest, s⟩
    | .store i =>
      match evalStore i st.stack fr.slots with
      | .error e => .error e
      | .ok (s, slots2) => .ok ⟨⟨fr.pc + 1, slots2, fr.bf⟩ :: rest, s⟩
    | .load i => stepStack fr rest (evalLoad i st.stack fr.slots)
    | .jumpDest => .ok ⟨⟨fr.pc + 1, fr.slots, fr.bf⟩ :: rest, st.stack⟩
    | .jumpRel d => .ok ⟨⟨fr.pc + d, fr.slots, fr.bf⟩ :: rest, st.stack⟩
    | .jumpRelIf d =>
      match st.stack with
      | [] => .error .internal
      | top :: s =>
        if isTrueVal top then .ok ⟨⟨fr.pc + d, fr.slots, fr.bf⟩ :: rest, s⟩
        else .ok ⟨⟨fr.pc + 1, fr.slots, fr.bf⟩ :: rest, s⟩
    | .index => stepStack fr rest (evalIndexOp st.stack)
    | .add => stepStack fr rest (evalAddOp st.stack)
    | .lt => stepStack fr rest (evalLtOp st.stack)
    | .createArray n => stepStack fr rest (evalCreateArray n st.stack)
    | .createTuple n => stepStack fr rest (evalCreateTuple n st.stack)
    | .expandTuple => stepStack fr rest (evalExpandTuple st.stack)
    | .call => callH st

/-- `BytecodeInterpreter::Run`, fuel-indexed (`none` = out of fuel): while
frames remain, fetch `bytecodes[pc]` (a negative PC would be an
out-of-range `at`, modelled `internal`) and execute it; after a `call` the
new back frame continues; after any other instruction whose PC did not
advance by exactly one, `XLS_RET_CHECK` that the landing instruction is a
`JumpDest`; when the PC runs off the end, pop the frame.  An empty frame
stack returns the value stack. -/
def runLoop (callH : CallHandler) :
    Nat → MState → Option (Except ErrKind (List InterpValue))
  | 0, _ => none
  | fuel + 1, st =>
    match st.frames with
    | [] => some (.ok st.stack)
    | fr :: rest =>
      if fr.pc < (fr.bf.length : Int) then
        if fr.pc < 0 then some (.error .internal)
        else
          match fr.bf.get? fr.pc.toNat with
          | none => some (.error .internal)
          | some bc =>
            match evalInstr callH bc st with
            | .error e => some (.error e)
            | .ok st2 =>
              match bc with
              | .call => runLoop callH fuel st2
              | _ =>
                match st2.frames with
                | [] => some (.error .internal)
                | fr2 :: _ =>
                  if fr2.pc = fr.pc + 1 then runLoop callH fuel st2
                  else
                    match (if 0 ≤ fr2.pc then fr2.bf.get? fr2.pc.toNat
                        else none) with
                    | some .jumpDest => runLoop callH fuel st2
                    | _ => some (.error .internal)
      else runLoop callH fuel ⟨rest, st.stack⟩

/-- `BytecodeInterpreter::Interpret`: build the bottom frame with the
caller-supplied arguments pre-placed in its slots, run the loop, and return
`stack_.back()` — WITHOUT any emptiness check: on an empty final stack the
access is out of bounds (no status is produced), surfacing here as
`.ok none`. -/
def interpret (callH : CallHandler) (fuel : Nat) (bf : List Op)
    (args : List InterpValue) : Option (Except ErrKind (Option InterpValue)) :=
  (runLoop callH fuel ⟨[⟨0, args, bf⟩], []⟩).map fun r => r.map List.head?

section RunClaims

example :
    interpret (fun _ => .error .internal) 2 [] [] = some (.ok none) := rfl
example :
    interpret (fun _ => .error .internal) 3 [.literal (.ubits 8 7)] []
      = some (.ok (some (.ubits 8 7))) := rfl

end RunClaims

/-- C8 (counterexample): a bytecode function with no instructions terminates
the dispatch loop without error and with an empty value stack, and
`Interpret` yields no reported internal error — it evaluates
`interpreter.stack_.back()` on the empty stack (an out-of-bounds access,
`.ok none` here), contradicting the claim that an internal error is
returned. -/
theorem c8_counterexample :
    runLoop (fun _ => .error .internal) 2 ⟨[⟨0, [], []⟩], []⟩ = some (.ok []) ∧
    interpret (fun _ => .error .internal) 2 [] [] = some (.ok none) ∧
    (some (.ok none) : Option (Except ErrKind (Option InterpValue)))
      ≠ some (.error .internal) := by
  refine ⟨rfl, rfl, ?_⟩
  simp

/-- C8 (amended): whenever the dispatch loop terminates without error but
with an empty value stack, `Interpret` does NOT report an internal error: it
performs the unchecked `stack_.back()` on the empty stack (out-of-bounds,
i.e. no value and no status), for every call handler, fuel, bytecode body
and argument list. -/
theorem c8_amended (callH : CallHandler) (fuel : Nat) (bf : List Op)
    (args : List InterpValue)
    (hrun : runLoop callH fuel ⟨[⟨0, args, bf⟩], []⟩ = some (.ok [])) :
    interpret callH fuel bf args = some (.ok none) := by
  unfold interpret
  rw [hrun]
  rfl

/-- C8 (witness): the amended theorem at the empty bytecode function. -/
theorem c8_amended_witness :
    interpret (fun _ => .error .internal) 2 [] [] = some (.ok none) :=
  c8_amended (fun _ => .error .internal) 2 [] [] rfl

/-! ### The `map` builtin (`BytecodeInterpreter::RunBuiltinMap`) -/

/-- The loop body synthesized by `RunBuiltinMap` for a callee and an input
array of `n` elements: initialize the slot-1 counter to u32:0; loop top
(`JumpDest` at index 2); INDEX THE INPUT AND CALL THE MAPPED FUNCTION
(indices 3..7); increment and store the counter (8..11); only THEN test
`counter < n` (12..14) and jump back to index 2 when true
(`JumpTarget(2 - 15)`); finally collect the `n` results (index 16).  The
body precedes the test: a do-while loop. -/
def mapBytecodes (callee : InterpValue) (n : Nat) : List Op :=
  [.literal (mkU32 0), .store 1,
   .jumpDest,
   .load 0, .load 1, .index, .literal callee, .call,
   .load 1, .literal (mkU32 1), .add, .store 1,
   .load 1, .literal (mkU32 n), .lt,
   .jumpRelIf (2 - 15),
   .createArray n]

/-- `BytecodeInterpreter::RunBuiltinMap`: pop the callee (`XLS_RET_CHECK` it
is a function), pop the input array, synthesize the loop body for its length
and push a frame owning it, with the input array as the sole slot. -/
def runBuiltinMap (st : MState) : Except ErrKind MState :=
  match st.stack with
  | callee :: inputs :: rest =>
    match callee with
    | .funcv _ =>
      match inputs.getValues? with
      | none => .error .invalidArgument
      | some elements =>
        .ok ⟨⟨0, [inputs], mapBytecodes callee elements.length⟩ :: st.frames,
          rest⟩
    | _ => .error .internal
  | _ => .error .internal

/-- C10: the body synthesized by the `map` builtin executes the loop body
(index the input at the counter, call the mapped function) BEFORE the
counter-versus-length test, so for an empty input array `map` does not
return an empty array: the synthesized frame runs `Literal 0; Store 1;
JumpDest; Load 0; Load 1; Index` and the `Index` of element 0 of the empty
array fails with invalid-argument — before the `Call`, the test, or the
`CreateArray`, for every call handler and any remaining fuel. -/
theorem c10_map_empty_fails (callH : CallHandler) (f : Nat) (fid : Nat)
    (fs : List FrameM) (rest : List InterpValue) :
    runBuiltinMap ⟨fs, .funcv fid :: .array [] :: rest⟩
      = .ok ⟨⟨0, [.array []], mapBytecodes (.funcv fid) 0⟩ :: fs, rest⟩ ∧
    runLoop callH (f + 6)
        ⟨⟨0, [.array []], mapBytecodes (.funcv fid) 0⟩ :: fs, rest⟩
      = some (.error .invalidArgument) := by
  constructor
  · rfl
  · rfl

end XlsDslx
